import Mathlib

set_option autoImplicit false

namespace CodeBuddy

/- ===================== Generic helpers ===================== -/

/-- Order-preserving first-occurrence deduplication with an accumulator of
already seen keys; models the Python idiom list(dict.fromkeys(xs)). -/
def dedupAux {α : Type} [DecidableEq α] (seen : List α) : List α → List α
  | [] => []
  | x :: xs => if x ∈ seen then dedupAux seen xs else x :: dedupAux (x :: seen) xs

/-- Models list(dict.fromkeys(xs)): removes duplicates, keeping the first
occurrence of each element and preserving order. -/
def dedupKeys {α : Type} [DecidableEq α] (l : List α) : List α := dedupAux [] l

/-- Python dict assignment d[k] = v on an insertion-ordered association list:
replaces the value in place when the key exists, otherwise appends. -/
def dictInsert {α β : Type} [DecidableEq α] : List (α × β) → α → β → List (α × β)
  | [], k, v => [(k, v)]
  | (k', v') :: rest, k, v =>
      if k' = k then (k, v) :: rest else (k', v') :: dictInsert rest k v

/-- Update the value stored at key k in place; no-op when the key is absent. -/
def dictModify {α β : Type} [DecidableEq α] : List (α × β) → α → (β → β) → List (α × β)
  | [], _, _ => []
  | (k', v') :: rest, k, f =>
      if k' = k then (k', f v') :: rest else (k', v') :: dictModify rest k f

/-- Python d.get(k): value at key k, none when absent. -/
def dictFind? {α β : Type} [DecidableEq α] : List (α × β) → α → Option β
  | [], _ => none
  | (k', v') :: rest, k => if k' = k then some v' else dictFind? rest k

/-- Truthiness of an optional string under Python rules: None and the empty
string are falsy. -/
def pyTruthy : Option String → Bool
  | none => false
  | some s => s ≠ ""

/-- Python str.strip(): drop leading and trailing whitespace. -/
def pyStrip (s : String) : String :=
  ⟨((s.data.dropWhile Char.isWhitespace).reverse.dropWhile Char.isWhitespace).reverse⟩

/-- Python `a or b` on optional strings, as used for `summary_refined or summary`. -/
def pyOr (a b : Option String) : Option String := if pyTruthy a then a else b

/- ===================== Store rows (schema of db_utils.py) ===================== -/

/-- One row of the functions table (columns used by the assembler).
The parameters column holds JSON text; `none` models text that
json.loads rejects (the assembler falls back to an empty list). -/
structure FunctionRow where
  function_id : Nat
  file_id : Nat
  name : String
  return_type : String
  parameters : Option (List String)
  start_line : Nat
  end_line : Nat
  is_prototype : Bool
  deriving DecidableEq, Repr

/-- One row of the function_calls table. -/
structure CallRow where
  caller_id : Nat
  callee_id : Nat
  deriving DecidableEq, Repr

/-- One row of the file_symbols table. -/
structure SymbolRow where
  file_id : Nat
  symbol_type : String
  symbol_name : String
  code_snippet : String
  deriving DecidableEq, Repr

/-- One row of file_summaries or function_summaries. -/
structure SummaryRow where
  item_id : Nat
  commit_sha : String
  summary : Option String
  summary_refined : Option String
  deriving DecidableEq, Repr

/-- The store contents read by build_code_map_from_db; each table is the list
of its rows in physical order. -/
structure DB where
  files : List (Nat × String)
  file_symbols : List SymbolRow
  functions : List FunctionRow
  file_summaries : List SummaryRow
  function_summaries : List SummaryRow
  function_calls : List CallRow
  deriving Repr

/- ===================== Assembled code map (code_map.py) ===================== -/

/-- Intermediate per-function record built by build_code_map_from_db
(the func_map dictionary values). Caller and callee labels are the results
of fetch_function_name_and_file, which can be None when a join misses. -/
structure FuncObj where
  file_id : Nat
  path : String
  name : String
  return_type : String
  parameters : List String
  start_line : Nat
  end_line : Nat
  prototype : Bool
  callers : List (Option String)
  callees : List (Option String)
  func_summary : Option String
  deriving DecidableEq, Repr

/-- A function entry of the final code map. An empty callers or callees list
models the omitted dictionary key, and func_summary = none the omitted key. -/
structure FuncEntry where
  name : String
  return_type : String
  parameters : List String
  start_line : Nat
  end_line : Nat
  prototype : Bool
  callers : List (Option String)
  callees : List (Option String)
  func_summary : Option String
  deriving DecidableEq, Repr

/-- A struct entry of the final code map (fields list is always empty here). -/
structure StructEntry where
  name : String
  code : String
  deriving DecidableEq, Repr

/-- A typedef entry of the final code map (original is always unknown here). -/
structure TypedefEntry where
  alias_name : String
  original : String
  code : String
  deriving DecidableEq, Repr

/-- A global entry of the final code map. -/
structure GlobalEntry where
  name : String
  gtype : String
  deriving DecidableEq, Repr

/-- Per-path entry of the final code map. file_summary is doubly optional:
the outer level models key presence, the inner the stored value. -/
structure FileEntry where
  functions : List FuncEntry
  structs : List StructEntry
  typedefs : List TypedefEntry
  globals : List GlobalEntry
  file_summary : Option (Option String)
  deriving DecidableEq, Repr

def emptyFileEntry : FileEntry :=
  { functions := [], structs := [], typedefs := [], globals := [], file_summary := none }

/-- The file_id_to_path dictionary comprehension over the files rows. -/
def file_id_to_path (db : DB) : List (Nat × String) :=
  db.files.foldl (fun m p => dictInsert m p.1 p.2) []

/-- fetch_function_name_and_file from db_utils.py: joins functions with files
on file_id, filtered by function_id, and returns (path::name, path); both
components are None when the join yields no row. -/
def fetch_function_name_and_file (db : DB) (function_id : Nat) :
    Option String × Option String :=
  match db.functions.find? (fun r => r.function_id == function_id) with
  | none => (none, none)
  | some r =>
      match db.files.find? (fun p => p.1 == r.file_id) with
      | none => (none, none)
      | some p => (some (p.2 ++ "::" ++ r.name), some p.2)

/-- Step 1 of build_code_map_from_db: an empty per-path entry for every path. -/
def initCodeMap (f2p : List (Nat × String)) : List (String × FileEntry) :=
  f2p.foldl (fun m p => dictInsert m p.2 emptyFileEntry) []

/-- Step 2: file summaries for the requested commit. -/
def applyFileSummaries (f2p : List (Nat × String)) (rows : List SummaryRow)
    (commit_sha : String) (m : List (String × FileEntry)) : List (String × FileEntry) :=
  (rows.filter (fun r => r.commit_sha == commit_sha)).foldl
    (fun m row =>
      let path? := dictFind? f2p row.item_id
      if pyTruthy path? then
        dictModify m (path?.getD "")
          (fun fe => { fe with file_summary := some (pyOr row.summary_refined row.summary) })
      else m) m

/-- Step 3: symbols, dispatched on symbol_type. -/
def applySymbols (f2p : List (Nat × String)) (rows : List SymbolRow)
    (m : List (String × FileEntry)) : List (String × FileEntry) :=
  rows.foldl
    (fun m row =>
      let path? := dictFind? f2p row.file_id
      if pyTruthy path? then
        dictModify m (path?.getD "")
          (fun fe =>
            if row.symbol_type == "struct" then
              { fe with structs := fe.structs ++ [⟨row.symbol_name, row.code_snippet⟩] }
            else if row.symbol_type == "typedef" then
              { fe with typedefs := fe.typedefs ++ [⟨row.symbol_name, "<unknown>", row.code_snippet⟩] }
            else if row.symbol_type == "global" then
              { fe with globals := fe.globals ++ [⟨row.symbol_name, row.code_snippet⟩] }
            else fe)
      else m) m

/-- Step 4: the func_map dictionary keyed by function_id. -/
def buildFuncMap (db : DB) (f2p : List (Nat × String)) : List (Nat × FuncObj) :=
  db.functions.foldl
    (fun fm r =>
      let path? := dictFind? f2p r.file_id
      if pyTruthy path? then
        dictInsert fm r.function_id
          { file_id := r.file_id
            path := path?.getD ""
            name := r.name
            return_type := r.return_type
            parameters := r.parameters.getD []
            start_line := r.start_line
            end_line := r.end_line
            prototype := r.is_prototype
            callers := []
            callees := []
            func_summary := none }
      else fm) []

/-- Step 5: function summaries for the requested commit. -/
def applyFuncSummaries (rows : List SummaryRow) (commit_sha : String)
    (fm : List (Nat × FuncObj)) : List (Nat × FuncObj) :=
  (rows.filter (fun r => r.commit_sha == commit_sha)).foldl
    (fun fm row =>
      if (dictFind? fm row.item_id).isSome then
        dictModify fm row.item_id
          (fun o => { o with func_summary := pyOr row.summary_refined row.summary })
      else fm) fm

/-- Step 6: the references loop over function_calls. For an edge both of whose
endpoints are in func_map, the source fetches the label of the caller into
c_name and the label of the callee into cal_name, then appends c_name to the
callees of the caller and c_name to the callers of the callee; cal_name is
never used afterwards. -/
def applyReferences (db : DB) (fm : List (Nat × FuncObj)) : List (Nat × FuncObj) :=
  db.function_calls.foldl
    (fun fm e =>
      if (dictFind? fm e.caller_id).isSome && (dictFind? fm e.callee_id).isSome then
        let c_name := (fetch_function_name_and_file db e.caller_id).1
        let _cal_name := (fetch_function_name_and_file db e.callee_id).1
        let fm := dictModify fm e.caller_id (fun o => { o with callees := o.callees ++ [c_name] })
        dictModify fm e.callee_id (fun o => { o with callers := o.callers ++ [c_name] })
      else fm) fm

/-- Step 7: cull duplicates from the reference lists of every func_map value. -/
def cullDuplicates (fm : List (Nat × FuncObj)) : List (Nat × FuncObj) :=
  fm.map (fun p => (p.1, { p.2 with callers := dedupKeys p.2.callers, callees := dedupKeys p.2.callees }))

/-- Logical identity key used by the unification step. -/
abbrev UKey := String × String × Nat × Nat

/-- Step 8: unify function rows sharing (path, name, start_line, end_line).
On a repeated key the reference lists are concatenated and re-deduplicated and
a missing summary is taken from the new row. -/
def unifyFuncs (fm : List (Nat × FuncObj)) : List (UKey × FuncObj) :=
  fm.foldl
    (fun um p =>
      let fobj := p.2
      let key : UKey := (fobj.path, fobj.name, fobj.start_line, fobj.end_line)
      match dictFind? um key with
      | none => um ++ [(key, fobj)]
      | some _ =>
          dictModify um key
            (fun existing =>
              { existing with
                callers := dedupKeys (existing.callers ++ fobj.callers)
                callees := dedupKeys (existing.callees ++ fobj.callees)
                func_summary :=
                  if !pyTruthy existing.func_summary && pyTruthy fobj.func_summary then
                    fobj.func_summary
                  else existing.func_summary })) []

/-- Step 9: attach every unified function to the entry of its path. -/
def attachFuncs (um : List (UKey × FuncObj)) (m : List (String × FileEntry)) :
    List (String × FileEntry) :=
  um.foldl
    (fun m p =>
      let fdata := p.2
      let entry : FuncEntry :=
        { name := fdata.name
          return_type := fdata.return_type
          parameters := fdata.parameters
          start_line := fdata.start_line
          end_line := fdata.end_line
          prototype := fdata.prototype
          callers := fdata.callers
          callees := fdata.callees
          func_summary := if pyTruthy fdata.func_summary then fdata.func_summary else none }
      dictModify m fdata.path (fun fe => { fe with functions := fe.functions ++ [entry] })) m

/-- build_code_map_from_db of code_analysis/code_map.py over the store model. -/
def build_code_map_from_db (db : DB) (commit_sha : String) : List (String × FileEntry) :=
  let f2p := file_id_to_path db
  let m := initCodeMap f2p
  let m := applyFileSummaries f2p db.file_summaries commit_sha m
  let m := applySymbols f2p db.file_symbols m
  let fm := buildFuncMap db f2p
  let fm := applyFuncSummaries db.function_summaries commit_sha fm
  let fm := applyReferences db fm
  let fm := cullDuplicates fm
  let um := unifyFuncs fm
  attachFuncs um m

/- ===================== Call-edge insertion (db_utils.py) ===================== -/

/-- insert_function_call: a call with caller_id equal to callee_id returns
without touching the store; otherwise the row is appended. -/
def insert_function_call (calls : List CallRow) (caller_id callee_id : Nat) : List CallRow :=
  if caller_id = callee_id then calls else calls ++ [⟨caller_id, callee_id⟩]

/- ===================== Processing status (db_utils.py) ===================== -/

/-- One mark_processed invocation. -/
structure Mark where
  item_type : String
  item_id : Nat
  commit_sha : String
  deriving DecidableEq, Repr

/-- The two processing-status tables. master holds (item_id, item_type) with
item_id as sole primary key; commits holds the (item_id, commit_sha) pairs of
summary_status_commit (timestamps carry no information for the queries
modelled here and are omitted). -/
structure StatusDB where
  master : List (Nat × String)
  commits : List (Nat × String)
  deriving DecidableEq, Repr

def emptyStatus : StatusDB := { master := [], commits := [] }

/-- mark_processed: INSERT OR IGNORE into master (conflict on the item_id
primary key alone), then upsert of the commit-scoped row, whose conflict
action only refreshes the timestamp and so leaves membership unchanged. -/
def mark_processed (db : StatusDB) (item_type : String) (item_id : Nat)
    (commit_sha : String) : StatusDB :=
  { master :=
      if db.master.any (fun p => p.1 == item_id) then db.master
      else db.master ++ [(item_id, item_type)]
    commits :=
      if db.commits.any (fun p => p.1 == item_id && p.2 == commit_sha) then db.commits
      else db.commits ++ [(item_id, commit_sha)] }

/-- The LEFT JOIN condition on summary_status_master: a row with this item_id
and this item_type exists. -/
def masterHas (db : StatusDB) (item_id : Nat) (item_type : String) : Bool :=
  db.master.any (fun p => p.1 == item_id && p.2 == item_type)

/-- The LEFT JOIN condition on summary_status_commit. -/
def commitHas (db : StatusDB) (item_id : Nat) (commit_sha : String) : Bool :=
  db.commits.any (fun p => p.1 == item_id && p.2 == commit_sha)

/-- get_unprocessed_files: files whose outer join against the master rows of
type file and the commit-scoped rows for this commit found no commit row. -/
def get_unprocessed_files (files : List (Nat × String)) (db : StatusDB)
    (commit_sha : String) : List (Nat × String) :=
  files.filter (fun f => !(masterHas db f.1 "file" && commitHas db f.1 commit_sha))

/-- get_unprocessed_functions: same join shape over the functions table,
keyed on item_type function; rows are (function_id, code_snippet). -/
def get_unprocessed_functions (functions : List (Nat × String)) (db : StatusDB)
    (commit_sha : String) : List (Nat × String) :=
  functions.filter (fun f => !(masterHas db f.1 "function" && commitHas db f.1 commit_sha))

/-- One mark_processed call described by a Mark record. -/
def markStep (db : StatusDB) (m : Mark) : StatusDB :=
  mark_processed db m.item_type m.item_id m.commit_sha

/-- Apply a sequence of mark_processed calls to an initially empty status store. -/
def applyMarks (ms : List Mark) : StatusDB :=
  ms.foldl markStep emptyStatus

/- ===================== Indexing pipeline (code_analysis/code_map_builder.py) ===================== -/

/-- Python str.endswith over the character list of the string. -/
def pyEndsWith (s suffix : String) : Bool := suffix.data.isSuffixOf s.data

/-- is_source_file from code_map_builder.py. -/
def is_source_file (filename : String) : Bool :=
  pyEndsWith filename ".c" || pyEndsWith filename ".h"

/-- One discovered file as seen by a worker: its relative path and whether
parsing plus extraction succeeds on it (false models the exception path of
_process_file). -/
structure WorkUnit where
  rel_path : String
  parses : Bool
  deriving DecidableEq, Repr

/-- Observable effects of the worker pool: the relative paths passed to
extract_info_from_file in submission order, the paths enqueued to the single
writer, and the processed counter. -/
structure PipelineLog where
  extracted : List String
  enqueued : List String
  processed_count : Nat
  deriving DecidableEq, Repr

/-- The body of _process_file. The worker receives the status store but never
consults it: there is no isProcessed early-skip in the source, and every
branch of the parser setup (private parser, lock fallback) calls
extract_info_from_file exactly once. On the exception path the counter is
still advanced and nothing is enqueued. -/
def _process_file (status : StatusDB) (log : PipelineLog) (f : WorkUnit) : PipelineLog :=
  let _ := status
  if f.parses then
    { extracted := log.extracted ++ [f.rel_path]
      enqueued := log.enqueued ++ [f.rel_path]
      processed_count := log.processed_count + 1 }
  else
    { extracted := log.extracted ++ [f.rel_path]
      enqueued := log.enqueued
      processed_count := log.processed_count + 1 }

/-- parse_and_store_entire_codebase: discovery collects every file passing
the suffix filter, then every discovered file is submitted to a worker.
Worker interleaving is modelled by submission order, which fixes the
per-file effects the claims are about. -/
def parse_and_store_entire_codebase (status : StatusDB) (tree : List WorkUnit) : PipelineLog :=
  (tree.filter (fun f => is_source_file f.rel_path)).foldl (_process_file status)
    { extracted := [], enqueued := [], processed_count := 0 }

/- ===================== Single writer thread (_DBWriter.run) ===================== -/

/-- Result of running the writer over a message queue: the final store state,
the items whose storage was attempted in order, the items dropped because
storage raised, and the queue left unread when the writer exits. -/
structure WriterResult (σ α : Type) where
  store : σ
  attempted : List α
  dropped : List α
  remaining : List (Option α)

/-- The _DBWriter.run loop: none is the stop sentinel; a storage failure
(store_file_info returning none) is logged, the item is dropped and the loop
continues with the store unchanged. An exhausted queue without sentinel
would block in the source; the model simply stops there. -/
def writer_run {σ α : Type} (store_file_info : σ → α → Option σ) :
    List (Option α) → σ → WriterResult σ α
  | [], s => { store := s, attempted := [], dropped := [], remaining := [] }
  | none :: rest, s => { store := s, attempted := [], dropped := [], remaining := rest }
  | some item :: rest, s =>
      match store_file_info s item with
      | some s' =>
          let r := writer_run store_file_info rest s'
          { store := r.store, attempted := item :: r.attempted, dropped := r.dropped,
            remaining := r.remaining }
      | none =>
          let r := writer_run store_file_info rest s
          { store := r.store, attempted := item :: r.attempted,
            dropped := item :: r.dropped, remaining := r.remaining }

/- ===================== Snippets (get_function_snippet) ===================== -/

/-- Python list slice l[s:e] with integer bounds and the default step: a
negative bound counts from the end of the list and is clamped at 0, a
nonnegative bound is clamped at the length, and the elements with effective
index in [s_eff, e_eff) are returned. -/
def pySlice {α : Type} (l : List α) (s e : Int) : List α :=
  let n : Int := l.length
  let s_eff : Nat := (if s < 0 then max 0 (n + s) else min s n).toNat
  let e_eff : Nat := (if e < 0 then max 0 (n + e) else min e n).toNat
  (l.drop s_eff).take (e_eff - s_eff)

/-- get_function_snippet of code_analysis/code_map_builder.py over the list of
lines of the file. The line arguments are integers as in the source:
start_index is max(0, start_line-1), end_index is min(len(lines), end_line)
(negative when end_line is), and the result joins the Python slice
lines[start_index:end_index]. -/
def get_function_snippet (lines : List String) (start_line end_line : Int) : String :=
  let start_index : Int := max 0 (start_line - 1)
  let end_index : Int := min (lines.length : Int) end_line
  String.join (pySlice lines start_index end_index)

/-- The snippet the claim describes: the concatenation, in order, of the lines
whose 1-based index lies between max(1, start_line) and
min(end_line, line count) inclusive. -/
def claimSnippet (lines : List String) (start_line end_line : Int) : String :=
  String.join
    (((List.range lines.length).filter
        (fun i : Nat => decide (max 1 start_line ≤ (i : Int) + 1
          ∧ (i : Int) + 1 ≤ min end_line (lines.length : Int)))).map
      (fun i => lines.getD i ""))

/- ===================== Structural extractor (code_extractor.py) ===================== -/

/-- A syntax node of the consumed parser contract: a type tag, the source text
of its span, and the ordered child list. -/
inductive Node where
  | node (ty : String) (text : String) (children : List Node)
  deriving Repr

def Node.ty : Node → String
  | .node t _ _ => t

def Node.text : Node → String
  | .node _ t _ => t

def Node.children : Node → List Node
  | .node _ _ cs => cs

mutual

/-- find_identifier: the node itself when it is an identifier, else the first
identifier found by depth-first search of the children in order. -/
def find_identifier : Node → Option String
  | .node ty text children =>
      if ty = "identifier" then some text else find_identifier_in_list children

def find_identifier_in_list : List Node → Option String
  | [] => none
  | c :: cs =>
      match find_identifier c with
      | some s => some s
      | none => find_identifier_in_list cs

end

mutual

/-- extract_parameters walk: collects the stripped text of every
parameter_declaration node in the subtree, in document order. -/
def extract_parameters_walk : Node → List String
  | .node ty text children =>
      (if ty = "parameter_declaration" then [pyStrip text] else []) ++
        extract_parameters_in_list children

def extract_parameters_in_list : List Node → List String
  | [] => []
  | c :: cs => extract_parameters_walk c ++ extract_parameters_in_list cs

end

def extract_parameters (n : Node) : List String := extract_parameters_walk n

/-- The declarator tags checked by the first loop of
extract_return_type_and_name. -/
def declTags : List String := ["declarator", "function_declarator", "pointer_declarator"]

/-- The type-token tags collected into the return type by
extract_return_type_and_name. -/
def typeTokenTags : List String :=
  ["primitive_type", "type_identifier", "type_qualifier",
   "storage_class_specifier", "sized_type_specifier"]

/-- Accumulator of the child loop of extract_return_type_and_name. -/
structure ExtractAcc where
  func_name : Option String
  return_type_parts : List String
  parameters : List String
  deriving DecidableEq, Repr

/-- One iteration of the child loop of extract_return_type_and_name. -/
def extractStep (acc : ExtractAcc) (c : Node) : ExtractAcc :=
  if c.ty ∈ declTags then
    { acc with func_name := find_identifier c, parameters := extract_parameters c }
  else if c.ty ∈ typeTokenTags then
    { acc with return_type_parts := acc.return_type_parts ++ [c.text] }
  else acc

/-- The fallback loop of extract_return_type_and_name: when the first loop
found no name, take name and parameters from the first child whose tag ends
in declarator. -/
def extractFallback (n : Node) (st : ExtractAcc) : ExtractAcc :=
  if !pyTruthy st.func_name then
    match n.children.find? (fun c => pyEndsWith c.ty "declarator") with
    | some c =>
        { st with func_name := find_identifier c, parameters := extract_parameters c }
    | none => st
  else st

/-- extract_return_type_and_name: the child loop, then the fallback loop over
children whose tag ends in declarator when no name was found, then the
space-joined return type with int substituted when it strips to empty. -/
def extract_return_type_and_name (n : Node) : Option String × String × List String :=
  let st := extractFallback n (n.children.foldl extractStep
    { func_name := none, return_type_parts := [], parameters := [] })
  let return_type := pyStrip (String.intercalate " " st.return_type_parts)
  let return_type := if return_type = "" then "int" else return_type
  (st.func_name, return_type, st.parameters)

/-- The return type the claim describes: the concatenation of the
primitive_type, type_qualifier, storage_class_specifier and
sized_type_specifier direct children of the node, with int substituted when
that concatenation is empty (the claim omits type_identifier). -/
def claimReturnType (n : Node) : String :=
  let claimTags : List String :=
    ["primitive_type", "type_qualifier", "storage_class_specifier", "sized_type_specifier"]
  let parts := (n.children.filter (fun c => decide (c.ty ∈ claimTags))).map Node.text
  let rt := pyStrip (String.intercalate " " parts)
  if rt = "" then "int" else rt

/-- The return type the source computes, stated declaratively: same as
claimReturnType but over the five tags of the source, type_identifier
included. -/
def sourceReturnType (n : Node) : String :=
  let parts := (n.children.filter (fun c => decide (c.ty ∈ typeTokenTags))).map Node.text
  let rt := pyStrip (String.intercalate " " parts)
  if rt = "" then "int" else rt

/- ===================== Concrete stores and trees for the claim instances ===================== -/

/-- Store after indexing one file in which function a calls function b:
file defines int a at line 1 calling b, and int b at line 3. -/
def db1 : DB :=
  { files := [(1, "file")]
    file_symbols := []
    functions :=
      [ { function_id := 1, file_id := 1, name := "a", return_type := "int",
          parameters := some [], start_line := 1, end_line := 1, is_prototype := false }
      , { function_id := 2, file_id := 1, name := "b", return_type := "int",
          parameters := some [], start_line := 3, end_line := 3, is_prototype := false } ]
    file_summaries := []
    function_summaries := []
    function_calls := [⟨1, 2⟩] }

/-- Store after indexing header h.h declaring int foo(int x) and source h.c
defining it: a prototype row and a definition row with the same name. -/
def db2 : DB :=
  { files := [(1, "h.h"), (2, "h.c")]
    file_symbols := []
    functions :=
      [ { function_id := 1, file_id := 1, name := "foo", return_type := "int",
          parameters := some ["int x"], start_line := 1, end_line := 1, is_prototype := true }
      , { function_id := 2, file_id := 2, name := "foo", return_type := "int",
          parameters := some ["int x"], start_line := 1, end_line := 2, is_prototype := false } ]
    file_summaries := []
    function_summaries := []
    function_calls := [] }

/-- Same store as db1 but with the call edge recorded twice, as repeated
extraction passes produce. -/
def db7 : DB := { db1 with function_calls := [⟨1, 2⟩, ⟨1, 2⟩] }

def defaultFuncEntry : FuncEntry :=
  { name := "", return_type := "", parameters := [], start_line := 0, end_line := 0,
    prototype := false, callers := [], callees := [], func_summary := none }

/-- The file entry assembled from db7. -/
def fe7 : FileEntry :=
  (dictFind? (build_code_map_from_db db7 "HEAD") "file").getD emptyFileEntry

/-- The entry of function a in fe7. -/
def f7 : FuncEntry := fe7.functions.getD 0 defaultFuncEntry

/-- A function-definition node whose only type token among the direct
children is a type_identifier (a typedef-named return type). -/
def c8Decl : Node := Node.node "function_declarator" "foo()" [Node.node "identifier" "foo" []]

def c8Node : Node :=
  Node.node "function_definition" "MyType foo() ..."
    [ Node.node "type_identifier" "MyType" []
    , c8Decl
    , Node.node "compound_statement" "..." [] ]

/-- A function-definition node with a primitive type token and one declarator. -/
def c8WDecl : Node := Node.node "function_declarator" "foo(int x)"
  [ Node.node "identifier" "foo" []
  , Node.node "parameter_declaration" "int x" [] ]

def c8WNode : Node :=
  Node.node "function_definition" "float foo(int x) ..."
    [ Node.node "primitive_type" "float" []
    , c8WDecl
    , Node.node "compound_statement" "..." [] ]

/- ===================== Generic lemmas ===================== -/

theorem foldl_inv {σ α : Type} (Inv : σ → Prop) (f : σ → α → σ) :
    ∀ (l : List α) (s : σ), Inv s → (∀ s' a, a ∈ l → Inv s' → Inv (f s' a)) →
      Inv (l.foldl f s) := by
  intro l
  induction l with
  | nil => intro s h _; exact h
  | cons a l ih =>
      intro s h hstep
      exact ih (f s a) (hstep s a (by simp) h)
        (fun s' b hb h' => hstep s' b (by simp [hb]) h')

theorem dedupAux_nodup {α : Type} [DecidableEq α] :
    ∀ (l seen : List α), (dedupAux seen l).Nodup ∧ ∀ x ∈ dedupAux seen l, x ∉ seen := by
  intro l
  induction l with
  | nil => intro seen; simp [dedupAux]
  | cons x xs ih =>
      intro seen
      by_cases hx : x ∈ seen
      · simpa [dedupAux, hx] using ih seen
      · have h2 := ih (x :: seen)
        simp only [dedupAux, if_neg hx]
        constructor
        · exact List.nodup_cons.mpr ⟨fun hmem => (h2.2 x hmem) (by simp), h2.1⟩
        · intro y hy
          rcases List.mem_cons.mp hy with rfl | hy'
          · exact hx
          · intro hys
            exact (h2.2 y hy') (by simp [hys])

theorem dedupKeys_nodup {α : Type} [DecidableEq α] (l : List α) : (dedupKeys l).Nodup :=
  (dedupAux_nodup l []).1

theorem dictInsert_forall {α β : Type} [DecidableEq α] (P : β → Prop) :
    ∀ (m : List (α × β)) (k : α) (v : β),
      (∀ p ∈ m, P p.2) → P v → ∀ p ∈ dictInsert m k v, P p.2 := by
  intro m
  induction m with
  | nil =>
      intro k v _ hv p hp
      simp only [dictInsert, List.mem_singleton] at hp
      subst hp; exact hv
  | cons q rest ih =>
      intro k v hm hv p hp
      obtain ⟨k', v'⟩ := q
      by_cases h : k' = k
      · simp only [dictInsert, if_pos h] at hp
        rcases List.mem_cons.mp hp with rfl | hp'
        · exact hv
        · exact hm _ (List.mem_cons_of_mem _ hp')
      · simp only [dictInsert, if_neg h] at hp
        rcases List.mem_cons.mp hp with rfl | hp'
        · exact hm _ (List.mem_cons_self _ _)
        · exact ih k v (fun q hq => hm q (List.mem_cons_of_mem _ hq)) hv p hp'

theorem dictModify_forall {α β : Type} [DecidableEq α] (P : β → Prop) :
    ∀ (m : List (α × β)) (k : α) (f : β → β),
      (∀ p ∈ m, P p.2) → (∀ v, P v → P (f v)) → ∀ p ∈ dictModify m k f, P p.2 := by
  intro m
  induction m with
  | nil => intro k f _ _ p hp; simp [dictModify] at hp
  | cons q rest ih =>
      intro k f hm hf p hp
      obtain ⟨k', v'⟩ := q
      by_cases h : k' = k
      · simp only [dictModify, if_pos h] at hp
        rcases List.mem_cons.mp hp with rfl | hp'
        · exact hf v' (hm _ (List.mem_cons_self _ _))
        · exact hm _ (List.mem_cons_of_mem _ hp')
      · simp only [dictModify, if_neg h] at hp
        rcases List.mem_cons.mp hp with rfl | hp'
        · exact hm _ (List.mem_cons_self _ _)
        · exact ih k f (fun q hq => hm q (List.mem_cons_of_mem _ hq)) hf p hp'

/- ===================== Claim C1 ===================== -/

/-- Claim C1: in the single-file scenario where a calls b, the assembler is
claimed to give a the callees list of the callee label file::b and b the
callers list of the caller label file::a. Evaluating build_code_map_from_db
on that store shows the callees list of a instead holds the label of a
itself, file::a, because the references loop appends c_name (the caller
label) to both lists and never uses the fetched callee label cal_name. The
callers side matches the claim. -/
theorem C1_eval :
    (dictFind? (build_code_map_from_db db1 "HEAD") "file").map
        (fun fe => fe.functions.map (fun f => (f.name, f.callers, f.callees)))
      = some [("a", [], [some "file::a"]), ("b", [some "file::a"], [])]
    ∧ (some "file::a" : Option String) ≠ some "file::b" := by
  exact ⟨rfl, by decide⟩

/- ===================== Claim C2 ===================== -/

/-- Claim C2 counterexample: for the store holding the prototype row of foo
from h.h and the definition row from h.c, the assembled map holds two
entries named foo in total, and the entry under h.h has prototype true; the
claim said exactly one entry with prototype false. -/
theorem C2_counterexample :
    ((build_code_map_from_db db2 "HEAD").map
        (fun q => (q.2.functions.filter (fun f => f.name == "foo")).length)).sum = 2
    ∧ (dictFind? (build_code_map_from_db db2 "HEAD") "h.h").map
        (fun fe => fe.functions.map (fun f => (f.name, f.prototype)))
      = some [("foo", true)] := by
  exact ⟨by decide, rfl⟩

/-- Claim C2 amended: the unification key of the assembler is
(path, name, start_line, end_line), so the header prototype and the source
definition stay separate entries: h.c holds exactly one entry for foo with
prototype false, and h.h holds exactly one entry for foo with prototype
true. -/
theorem C2_amended_thm :
    (dictFind? (build_code_map_from_db db2 "HEAD") "h.c").map
        (fun fe => fe.functions.map (fun f => (f.name, f.prototype)))
      = some [("foo", false)]
    ∧ (dictFind? (build_code_map_from_db db2 "HEAD") "h.h").map
        (fun fe => fe.functions.map (fun f => (f.name, f.prototype)))
      = some [("foo", true)] := by
  exact ⟨rfl, rfl⟩

/- ===================== Claim C3 ===================== -/

/-- Claim C3 counterexample: file a.c (id 1) is marked processed for HEAD,
yet running the pipeline over the unchanged tree invokes the structural
extractor on a.c again: no worker consults the processing status. -/
theorem C3_counterexample :
    masterHas (applyMarks [⟨"file", 1, "HEAD"⟩]) 1 "file" = true
    ∧ commitHas (applyMarks [⟨"file", 1, "HEAD"⟩]) 1 "HEAD" = true
    ∧ (parse_and_store_entire_codebase (applyMarks [⟨"file", 1, "HEAD"⟩])
        [⟨"a.c", true⟩]).extracted = ["a.c"] := by
  refine ⟨by decide, by decide, ?_⟩
  decide

theorem pipeline_extracted_eq (status : StatusDB) :
    ∀ (l : List WorkUnit) (log : PipelineLog),
      (l.foldl (_process_file status) log).extracted
        = log.extracted ++ l.map WorkUnit.rel_path := by
  intro l
  induction l with
  | nil => intro log; simp
  | cons f l ih =>
      intro log
      cases hf : f.parses <;>
        simp [_process_file, hf, ih, List.append_assoc]

/-- Claim C3 amended: the workers of parse_and_store_entire_codebase never
consult the processing status: whatever the status store holds, one run
passes every discovered source file to the extractor, in order, exactly
once; the isProcessed gating exists only in the summarization stage. -/
theorem C3_amended (status : StatusDB) (tree : List WorkUnit) :
    (parse_and_store_entire_codebase status tree).extracted
      = (tree.filter (fun f => is_source_file f.rel_path)).map WorkUnit.rel_path := by
  unfold parse_and_store_entire_codebase
  simpa using pipeline_extracted_eq status (tree.filter (fun f => is_source_file f.rel_path)) _

/- ===================== Claim C5 ===================== -/

/-- Claim C5: the processed answer for function 1 is claimed to depend only
on marks with item_type function. Evaluating the queries shows otherwise:
after marking file 1 and then function 1 for HEAD, function 1 still appears
unprocessed, while marking only function 1 leaves it processed. The master
table keys on item_id alone, so the earlier file mark captures the master
row and the join on item_type function then never matches. -/
theorem C5_eval :
    get_unprocessed_functions [(1, "int f()")]
        (applyMarks [⟨"file", 1, "HEAD"⟩, ⟨"function", 1, "HEAD"⟩]) "HEAD"
      = [(1, "int f()")]
    ∧ get_unprocessed_functions [(1, "int f()")]
        (applyMarks [⟨"function", 1, "HEAD"⟩]) "HEAD" = [] := by
  exact ⟨by decide, by decide⟩

/- ===================== Claim C6 ===================== -/

/-- Claim C6: every row stored by a sequence of insert_function_call
operations has caller_id different from callee_id, because an insertion
with equal endpoints returns without touching the store. -/
theorem C6_no_self_edges (ops : List (Nat × Nat)) (row : CallRow)
    (hrow : row ∈ ops.foldl (fun cs p => insert_function_call cs p.1 p.2) []) :
    row.caller_id ≠ row.callee_id := by
  have h := foldl_inv (fun cs => ∀ r ∈ cs, r.caller_id ≠ r.callee_id)
    (fun cs p => insert_function_call cs p.1 p.2) ops [] (by simp)
    (by
      intro cs p _ hInv r hr
      simp only [insert_function_call] at hr
      split at hr
      · exact hInv r hr
      · rcases List.mem_append.mp hr with h | h
        · exact hInv r h
        · simp only [List.mem_singleton] at h
          subst h
          simpa using ‹¬ p.1 = p.2›)
  exact h row hrow

theorem C6_witness :
    CallRow.mk 1 2 ∈
        [((1 : Nat), (1 : Nat)), (1, 2)].foldl (fun cs p => insert_function_call cs p.1 p.2) []
    ∧ (CallRow.mk 1 2).caller_id ≠ (CallRow.mk 1 2).callee_id :=
  ⟨by decide, C6_no_self_edges [((1 : Nat), (1 : Nat)), (1, 2)] (CallRow.mk 1 2) (by decide)⟩

/- ===================== Claim C9 ===================== -/

/-- Claim C9: for a queue of enqueued items followed by the stop sentinel,
the writer attempts every item before the sentinel in order, whatever
storage failures occur along the way, stops exactly at the sentinel leaving
the rest of the queue unread, and everything it drops is one of the items
it attempted. -/
theorem C9_writer_drains {σ α : Type} (store_file_info : σ → α → Option σ)
    (pre : List α) (post : List (Option α)) (s : σ) :
    (writer_run store_file_info (pre.map some ++ none :: post) s).attempted = pre
    ∧ (writer_run store_file_info (pre.map some ++ none :: post) s).remaining = post
    ∧ ∀ x ∈ (writer_run store_file_info (pre.map some ++ none :: post) s).dropped,
        x ∈ pre := by
  induction pre generalizing s with
  | nil => simp [writer_run]
  | cons a pre ih =>
      cases h : store_file_info s a with
      | some s' =>
          have ihs := ih s'
          refine ⟨?_, ?_, ?_⟩
          · simp only [List.map_cons, List.cons_append, writer_run, h]
            simp [ihs.1]
          · simp only [List.map_cons, List.cons_append, writer_run, h]
            simp [ihs.2.1]
          · intro x hx
            simp only [List.map_cons, List.cons_append, writer_run, h] at hx
            exact List.mem_cons_of_mem _ (ihs.2.2 x hx)
      | none =>
          have ihs := ih s
          refine ⟨?_, ?_, ?_⟩
          · simp only [List.map_cons, List.cons_append, writer_run, h]
            simp [ihs.1]
          · simp only [List.map_cons, List.cons_append, writer_run, h]
            simp [ihs.2.1]
          · intro x hx
            simp only [List.map_cons, List.cons_append, writer_run, h] at hx
            rcases List.mem_cons.mp hx with rfl | hx'
            · exact List.mem_cons_self _ _
            · exact List.mem_cons_of_mem _ (ihs.2.2 x hx')

theorem C9_witness :
    (writer_run (fun (s : Nat) (i : String) => if i = "bad" then none else some (s + 1))
        (["x", "bad", "y"].map some ++ none :: [some "z"]) 0).attempted = ["x", "bad", "y"]
    ∧ (writer_run (fun (s : Nat) (i : String) => if i = "bad" then none else some (s + 1))
        (["x", "bad", "y"].map some ++ none :: [some "z"]) 0).remaining = [some "z"] :=
  ⟨(C9_writer_drains (fun (s : Nat) (i : String) => if i = "bad" then none else some (s + 1))
      ["x", "bad", "y"] [some "z"] 0).1,
   (C9_writer_drains (fun (s : Nat) (i : String) => if i = "bad" then none else some (s + 1))
      ["x", "bad", "y"] [some "z"] 0).2.1⟩

/- ===================== Claim C10 ===================== -/

theorem range_filter_window :
    ∀ (l : List String) (a b : Nat),
      ((List.range l.length).filter (fun i => decide (a ≤ i ∧ i < b))).map
          (fun i => l.getD i "")
        = (l.drop a).take (b - a) := by
  intro l
  induction l with
  | nil => intro a b; simp
  | cons x xs ih =>
      intro a b
      rcases a with _ | a' <;> rcases b with _ | b'
      · have hfalse : ∀ i ∈ List.range (x :: xs).length,
            (fun i => decide (0 ≤ i ∧ i < 0)) i = (fun _ => false) i := by
          intro i _; simp
        rw [List.filter_congr hfalse, List.filter_false]
        simp
      · rw [List.length_cons, List.range_succ_eq_map, List.filter_cons]
        rw [if_pos (show decide (0 ≤ 0 ∧ 0 < b' + 1) = true by simp),
          List.filter_map, List.map_cons, List.map_map]
        have hpq : ∀ i ∈ List.range xs.length,
            ((fun i => decide (0 ≤ i ∧ i < b' + 1)) ∘ Nat.succ) i
              = (fun i => decide (0 ≤ i ∧ i < b')) i := by
          intro i _
          simp only [Function.comp_apply]
          exact decide_eq_decide.mpr (by omega)
        rw [List.filter_congr hpq]
        have hg : ((fun i => (x :: xs).getD i "") ∘ Nat.succ) = (fun i => xs.getD i "") := by
          funext i; simp
        rw [hg, ih 0 b']
        simp
      · have hfalse : ∀ i ∈ List.range (x :: xs).length,
            (fun i => decide (a' + 1 ≤ i ∧ i < 0)) i = (fun _ => false) i := by
          intro i _; simp
        rw [List.filter_congr hfalse, List.filter_false]
        simp
      · rw [List.length_cons, List.range_succ_eq_map, List.filter_cons]
        rw [if_neg (show ¬ decide (a' + 1 ≤ 0 ∧ 0 < b' + 1) = true by simp),
          List.filter_map, List.map_map]
        have hpq : ∀ i ∈ List.range xs.length,
            ((fun i => decide (a' + 1 ≤ i ∧ i < b' + 1)) ∘ Nat.succ) i
              = (fun i => decide (a' ≤ i ∧ i < b')) i := by
          intro i _
          simp only [Function.comp_apply]
          exact decide_eq_decide.mpr (by omega)
        rw [List.filter_congr hpq]
        have hg : ((fun i => (x :: xs).getD i "") ∘ Nat.succ) = (fun i => xs.getD i "") := by
          funext i; simp
        rw [hg, ih a' b']
        simp [Nat.succ_sub_succ]

theorem pySlice_clamped (l : List String) (s e : Int)
    (hs : 0 ≤ s) (he : 0 ≤ e) (hel : e ≤ (l.length : Int)) :
    pySlice l s e = (l.drop s.toNat).take (e.toNat - s.toNat) := by
  simp only [pySlice]
  rw [if_neg (show ¬ s < 0 by omega), if_neg (show ¬ e < 0 by omega)]
  have heq : min e (l.length : Int) = e := by omega
  rw [heq]
  by_cases hsl : s ≤ (l.length : Int)
  · have hseq : min s (l.length : Int) = s := by omega
    rw [hseq]
  · have hseq : min s (l.length : Int) = (l.length : Int) := by omega
    rw [hseq]
    have hdrop1 : l.drop ((l.length : Int)).toNat = [] := by simp
    have hdrop2 : l.drop s.toNat = [] := List.drop_eq_nil_of_le (by omega)
    rw [hdrop1, hdrop2]
    simp

/-- Claim C10 counterexample: on a three-line file with start_line 1 and
end_line -1, end_index is the negative -1 and the Python slice counts it
from the end of the list, so the code returns the first two lines joined,
while the claimed window formula (and the claimed empty-string clause for a
range outside the file) gives the empty string. -/
theorem C10_counterexample :
    get_function_snippet ["a\n", "b\n", "c\n"] 1 (-1) = "a\nb\n"
    ∧ claimSnippet ["a\n", "b\n", "c\n"] 1 (-1) = ""
    ∧ ("a\nb\n" : String) ≠ "" := by
  refine ⟨by decide, by decide, by decide⟩

/-- Claim C10 amended: for every file content, every integer start_line and
every nonnegative end_line (the only end lines the extractor produces, since
they are 1-based), get_function_snippet returns the concatenation of the
lines whose 1-based index lies between max(1, start_line) and
min(end_line, line count) inclusive, without failing, and in particular the
empty string when start_line exceeds end_line or the range lies beyond the
file; for negative end_line the Python slice counts from the end of the
file instead. -/
theorem C10_amended (lines : List String) (start_line end_line : Int)
    (hend : 0 ≤ end_line) :
    get_function_snippet lines start_line end_line = claimSnippet lines start_line end_line
    ∧ (end_line < start_line → get_function_snippet lines start_line end_line = "")
    ∧ ((lines.length : Int) < start_line → get_function_snippet lines start_line end_line = "") := by
  have hred : get_function_snippet lines start_line end_line
      = String.join ((lines.drop (start_line - 1).toNat).take
          ((min (lines.length : Int) end_line).toNat - (start_line - 1).toNat)) := by
    show String.join (pySlice lines (max 0 (start_line - 1))
        (min (lines.length : Int) end_line)) = _
    rw [pySlice_clamped lines _ _ (by omega) (by omega) (by omega)]
    have hmax : (max 0 (start_line - 1)).toNat = (start_line - 1).toNat := by omega
    rw [hmax]
  refine ⟨?_, ?_, ?_⟩
  · rw [hred]
    unfold claimSnippet
    congr 1
    have hpq : ∀ i ∈ List.range lines.length,
        (fun i : Nat => decide (max 1 start_line ≤ (i : Int) + 1
            ∧ (i : Int) + 1 ≤ min end_line (lines.length : Int))) i
          = (fun i : Nat => decide ((start_line - 1).toNat ≤ i
            ∧ i < (min (lines.length : Int) end_line).toNat)) i := by
      intro i _
      exact decide_eq_decide.mpr (by omega)
    rw [List.filter_congr hpq, range_filter_window]
  · intro h
    rw [hred]
    have hz : (min (lines.length : Int) end_line).toNat - (start_line - 1).toNat = 0 := by
      omega
    rw [hz, List.take_zero]
    rfl
  · intro h
    rw [hred]
    have hd : lines.drop (start_line - 1).toNat = [] := List.drop_eq_nil_of_le (by omega)
    rw [hd, List.take_nil]
    rfl

theorem C10_witness :
    (0 : Int) ≤ 9
    ∧ get_function_snippet ["la", "lb", "lc"] 2 9 = claimSnippet ["la", "lb", "lc"] 2 9
    ∧ get_function_snippet ["la", "lb", "lc"] 9 2 = "" :=
  ⟨by decide,
   (C10_amended ["la", "lb", "lc"] 2 9 (by decide)).1,
   (C10_amended ["la", "lb", "lc"] 9 2 (by decide)).2.1 (by decide)⟩

/- ===================== Claim C8 ===================== -/

theorem decl_not_typeToken : ∀ s ∈ declTags, s ∉ typeTokenTags := by
  intro s hs
  fin_cases hs <;> decide

theorem extract_parts_eq :
    ∀ (cs : List Node) (acc : ExtractAcc),
      (cs.foldl extractStep acc).return_type_parts
        = acc.return_type_parts
            ++ (cs.filter (fun c => decide (c.ty ∈ typeTokenTags))).map Node.text := by
  intro cs
  induction cs with
  | nil => intro acc; simp
  | cons c cs ih =>
      intro acc
      rw [List.foldl_cons]
      by_cases hd : c.ty ∈ declTags
      · have hnt : c.ty ∉ typeTokenTags := decl_not_typeToken c.ty hd
        rw [show extractStep acc c
            = { acc with func_name := find_identifier c, parameters := extract_parameters c }
          from by simp [extractStep, hd], ih]
        simp [List.filter_cons, hnt]
      · by_cases ht : c.ty ∈ typeTokenTags
        · rw [show extractStep acc c
              = { acc with return_type_parts := acc.return_type_parts ++ [c.text] }
            from by simp [extractStep, hd, ht], ih]
          simp [List.filter_cons, ht]
        · rw [show extractStep acc c = acc from by simp [extractStep, hd, ht], ih]
          simp [List.filter_cons, ht]

theorem foldl_no_decl :
    ∀ (cs : List Node) (acc : ExtractAcc),
      (∀ c ∈ cs, c.ty ∉ declTags) →
        (cs.foldl extractStep acc).func_name = acc.func_name
        ∧ (cs.foldl extractStep acc).parameters = acc.parameters := by
  intro cs
  induction cs with
  | nil => intro acc _; exact ⟨rfl, rfl⟩
  | cons c cs ih =>
      intro acc h
      have hd : c.ty ∉ declTags := h c (by simp)
      have hrest := ih (extractStep acc c) (fun c' hc' => h c' (by simp [hc']))
      have hstep1 : (extractStep acc c).func_name = acc.func_name := by
        by_cases ht : c.ty ∈ typeTokenTags <;> simp [extractStep, hd, ht]
      have hstep2 : (extractStep acc c).parameters = acc.parameters := by
        by_cases ht : c.ty ∈ typeTokenTags <;> simp [extractStep, hd, ht]
      rw [List.foldl_cons]
      exact ⟨hrest.1.trans hstep1, hrest.2.trans hstep2⟩

theorem foldl_one_decl :
    ∀ (cs : List Node) (acc : ExtractAcc) (c : Node),
      cs.filter (fun c => decide (c.ty ∈ declTags)) = [c] →
        (cs.foldl extractStep acc).func_name = find_identifier c
        ∧ (cs.foldl extractStep acc).parameters = extract_parameters c := by
  intro cs
  induction cs with
  | nil => intro acc c h; simp at h
  | cons c0 cs ih =>
      intro acc c h
      rw [List.foldl_cons]
      by_cases hd : c0.ty ∈ declTags
      · rw [List.filter_cons_of_pos (by simpa using hd)] at h
        injection h with h1 h2
        subst h1
        have hnone : ∀ c' ∈ cs, c'.ty ∉ declTags := by
          intro c' hc' hmem
          have : c' ∈ cs.filter (fun c => decide (c.ty ∈ declTags)) :=
            List.mem_filter.mpr ⟨hc', by simpa using hmem⟩
          rw [h2] at this
          simp at this
        have hrest := foldl_no_decl cs (extractStep acc c0) hnone
        rw [hrest.1, hrest.2]
        constructor <;> simp [extractStep, hd]
      · rw [List.filter_cons_of_neg (by simpa using hd)] at h
        have := ih (extractStep acc c0) c h
        exact this

/-- Claim C8 counterexample: for a function-definition node whose only type
token among the direct children is a type_identifier, the code returns that
token text as the return type, while the concatenation the claim describes
(primitive_type, type_qualifier, storage_class_specifier,
sized_type_specifier only) is empty, so the claim predicts int. -/
theorem C8_counterexample :
    (extract_return_type_and_name c8Node).2.1 = "MyType"
    ∧ claimReturnType c8Node = "int"
    ∧ ("MyType" : String) ≠ "int" := by
  refine ⟨by decide, by decide, by decide⟩

/-- Claim C8 amended: for a definition node with exactly one direct child
among the declarator tags, and whose declarator yields a non-empty name, the
extracted name is the first identifier found by depth-first search of that
declarator subtree, the parameters are the parameter-declaration texts of
that subtree, and the return type is the source-order concatenation of the
primitive-type, type-identifier, type-qualifier, storage-class-specifier
and sized-type-specifier direct children outside the declarator, with int
substituted when that concatenation strips to empty. -/
theorem C8_amended (n : Node) (c : Node)
    (hone : n.children.filter (fun c => decide (c.ty ∈ declTags)) = [c])
    (hname : pyTruthy (find_identifier c) = true) :
    (extract_return_type_and_name n).1 = find_identifier c
    ∧ (extract_return_type_and_name n).2.1 = sourceReturnType n
    ∧ (extract_return_type_and_name n).2.2 = extract_parameters c := by
  have hfold := foldl_one_decl n.children
    { func_name := none, return_type_parts := [], parameters := [] } c hone
  have hparts := extract_parts_eq n.children
    { func_name := none, return_type_parts := [], parameters := [] }
  have hfb : extractFallback n (n.children.foldl extractStep
      { func_name := none, return_type_parts := [], parameters := [] })
      = n.children.foldl extractStep
        { func_name := none, return_type_parts := [], parameters := [] } := by
    unfold extractFallback
    rw [hfold.1, hname]
    simp
  refine ⟨?_, ?_, ?_⟩
  · show (extractFallback n (n.children.foldl extractStep
        { func_name := none, return_type_parts := [], parameters := [] })).func_name = _
    rw [hfb, hfold.1]
  · show (if pyStrip (String.intercalate " "
        (extractFallback n (n.children.foldl extractStep
          { func_name := none, return_type_parts := [], parameters := [] })).return_type_parts)
          = "" then "int"
      else pyStrip (String.intercalate " "
        (extractFallback n (n.children.foldl extractStep
          { func_name := none, return_type_parts := [], parameters := [] })).return_type_parts))
      = sourceReturnType n
    rw [hfb, hparts]
    simp [sourceReturnType]
  · show (extractFallback n (n.children.foldl extractStep
        { func_name := none, return_type_parts := [], parameters := [] })).parameters = _
    rw [hfb, hfold.2]

theorem C8_witness :
    c8WNode.children.filter (fun c => decide (c.ty ∈ declTags)) = [c8WDecl]
    ∧ pyTruthy (find_identifier c8WDecl) = true
    ∧ (extract_return_type_and_name c8WNode).1 = find_identifier c8WDecl
    ∧ (extract_return_type_and_name c8WNode).2.1 = sourceReturnType c8WNode :=
  ⟨rfl, rfl, (C8_amended c8WNode c8WDecl rfl rfl).1, (C8_amended c8WNode c8WDecl rfl rfl).2.1⟩

/- ===================== Claim C4 ===================== -/

theorem mark_mono_master (db : StatusDB) (t : String) (i : Nat) (c : String)
    (id0 : Nat) (ty0 : String) (h : masterHas db id0 ty0 = true) :
    masterHas (mark_processed db t i c) id0 ty0 = true := by
  simp only [masterHas, mark_processed] at h ⊢
  split
  · exact h
  · rw [List.any_append]
    simp [h]

theorem mark_mono_commit (db : StatusDB) (t : String) (i : Nat) (c : String)
    (id0 : Nat) (c0 : String) (h : commitHas db id0 c0 = true) :
    commitHas (mark_processed db t i c) id0 c0 = true := by
  simp only [commitHas, mark_processed] at h ⊢
  split
  · exact h
  · rw [List.any_append]
    simp [h]

theorem marks_mono_master (ms2 : List Mark) :
    ∀ (db : StatusDB) (id0 : Nat) (ty0 : String), masterHas db id0 ty0 = true →
      masterHas (ms2.foldl markStep db) id0 ty0 = true := by
  induction ms2 with
  | nil => intro db i t h; exact h
  | cons m ms ih =>
      intro db i t h
      exact ih (markStep db m) i t (mark_mono_master db _ _ _ i t h)

theorem marks_mono_commit (ms2 : List Mark) :
    ∀ (db : StatusDB) (id0 : Nat) (c0 : String), commitHas db id0 c0 = true →
      commitHas (ms2.foldl markStep db) id0 c0 = true := by
  induction ms2 with
  | nil => intro db i c h; exact h
  | cons m ms ih =>
      intro db i c h
      exact ih (markStep db m) i c (mark_mono_commit db _ _ _ i c h)

theorem any_id_false_of_all_ne (l : List (Nat × String)) (F : Nat)
    (h : l.all (fun p => p.1 != F) = true) :
    l.any (fun p => p.1 == F) = false := by
  rw [List.all_eq_true] at h
  rw [List.any_eq_false]
  intro p hp
  have := h p hp
  simpa using this

theorem commitHas_mark_self (db : StatusDB) (t : String) (F : Nat) (C : String) :
    commitHas (mark_processed db t F C) F C = true := by
  simp only [commitHas, mark_processed]
  split
  · assumption
  · rw [List.any_append]
    simp

theorem commitHas_false_of_no_marks (F : Nat) (C2 : String) :
    ∀ (ms : List Mark) (db : StatusDB), commitHas db F C2 = false →
      (∀ m ∈ ms, ¬(m.item_id = F ∧ m.commit_sha = C2)) →
      commitHas (ms.foldl markStep db) F C2 = false := by
  intro ms
  induction ms with
  | nil => intro db h _; exact h
  | cons m ms ih =>
      intro db h hms
      rw [List.foldl_cons]
      apply ih
      · have hm := hms m (by simp)
        have hsingle : (m.item_id == F && m.commit_sha == C2) = false := by
          by_cases h1 : m.item_id = F
          · by_cases h2 : m.commit_sha = C2
            · exact absurd ⟨h1, h2⟩ hm
            · simp [h2]
          · simp [h1]
        simp only [commitHas, markStep, mark_processed] at h ⊢
        split
        · exact h
        · rw [List.any_append]
          simp [h, hsingle]
      · intro m' hm'
        exact hms m' (by simp [hm'])

theorem masterHas_after_marks (F : Nat) (C : String) (ms : List Mark)
    (hty : ∀ m ∈ ms, m.item_id = F → m.item_type = "file") :
    masterHas (applyMarks (ms ++ [⟨"file", F, C⟩])) F "file" = true := by
  have hinv : masterHas (applyMarks ms) F "file" = true
      ∨ (applyMarks ms).master.all (fun p => p.1 != F) = true := by
    refine foldl_inv
      (fun db => masterHas db F "file" = true ∨ db.master.all (fun p => p.1 != F) = true)
      markStep ms emptyStatus ?_ ?_
    · right; simp [emptyStatus]
    · intro db m hm hI
      rcases hI with hI | hI
      · exact Or.inl (mark_mono_master db _ _ _ F "file" hI)
      · by_cases hid : m.item_id = F
        · have hty' : m.item_type = "file" := hty m hm hid
          left
          have hany : db.master.any (fun p => p.1 == m.item_id) = false := by
            rw [hid]
            exact any_id_false_of_all_ne db.master F hI
          simp only [markStep, mark_processed, masterHas]
          rw [if_neg (by simp [hany])]
          rw [List.any_append]
          simp [hid, hty']
        · right
          simp only [markStep, mark_processed]
          split
          · exact hI
          · rw [List.all_append]
            simp [hI, hid]
  rw [applyMarks, List.foldl_append]
  simp only [List.foldl_cons, List.foldl_nil]
  rcases hinv with hI | hI
  · exact mark_mono_master _ _ _ _ _ _ hI
  · have hany : (List.foldl markStep emptyStatus ms).master.any (fun p => p.1 == F) = false :=
      any_id_false_of_all_ne _ F hI
    simp only [markStep, mark_processed, masterHas]
    rw [if_neg (by simp [hany])]
    rw [List.any_append]
    simp

theorem not_unprocessed_of_processed (files : List (Nat × String)) (db : StatusDB)
    (C : String) (F : Nat) (path : String)
    (h1 : masterHas db F "file" = true) (h2 : commitHas db F C = true) :
    (F, path) ∉ get_unprocessed_files files db C := by
  intro hmem
  have hcond := (List.mem_filter.mp hmem).2
  simp [get_unprocessed_files, h1, h2] at hcond

theorem unprocessed_of_not_commit (files : List (Nat × String)) (db : StatusDB)
    (C2 : String) (F : Nat) (path : String)
    (h2 : commitHas db F C2 = false) (hmem : (F, path) ∈ files) :
    (F, path) ∈ get_unprocessed_files files db C2 :=
  List.mem_filter.mpr ⟨hmem, by simp [h2]⟩

/-- Claim C4 counterexample: item 1 was first marked with item_type function;
immediately after mark_processed with item_type file for item 1 at HEAD, the
file still appears in the unprocessed query for HEAD, because the master
table keys on item_id alone and kept the function row. -/
theorem C4_counterexample :
    get_unprocessed_files [(1, "a.c")]
        (applyMarks [⟨"function", 1, "HEAD"⟩, ⟨"file", 1, "HEAD"⟩]) "HEAD"
      = [(1, "a.c")] := by
  decide

/-- Claim C4 amended: provided every earlier mark for the same numeric id
used item_type file, then immediately after markProcessed(file, F, C) the
file no longer appears in the unprocessed query for C, stays that way under
any further marks (status never regresses), is still reported unprocessed
for a different commit C2 not previously marked, and stops being reported
unprocessed for C2 once markProcessed(file, F, C2) is called. -/
theorem C4_amended (ms : List Mark) (F : Nat) (path C C2 : String)
    (files : List (Nat × String))
    (hty : ∀ m ∈ ms, m.item_id = F → m.item_type = "file")
    (hC2 : C2 ≠ C)
    (hfresh : ∀ m ∈ ms, ¬(m.item_id = F ∧ m.commit_sha = C2))
    (hmem : (F, path) ∈ files) :
    ((F, path) ∉ get_unprocessed_files files (applyMarks (ms ++ [⟨"file", F, C⟩])) C)
    ∧ (∀ ms2 : List Mark,
        (F, path) ∉ get_unprocessed_files files
          (ms2.foldl markStep (applyMarks (ms ++ [⟨"file", F, C⟩]))) C)
    ∧ ((F, path) ∈ get_unprocessed_files files (applyMarks (ms ++ [⟨"file", F, C⟩])) C2)
    ∧ ((F, path) ∉ get_unprocessed_files files
        (mark_processed (applyMarks (ms ++ [⟨"file", F, C⟩])) "file" F C2) C2) := by
  have hmaster : masterHas (applyMarks (ms ++ [⟨"file", F, C⟩])) F "file" = true :=
    masterHas_after_marks F C ms hty
  have hcommit : commitHas (applyMarks (ms ++ [⟨"file", F, C⟩])) F C = true := by
    rw [applyMarks, List.foldl_append]
    simp only [List.foldl_cons, List.foldl_nil]
    exact commitHas_mark_self _ _ _ _
  refine ⟨?_, ?_, ?_, ?_⟩
  · exact not_unprocessed_of_processed files _ C F path hmaster hcommit
  · intro ms2
    exact not_unprocessed_of_processed files _ C F path
      (marks_mono_master ms2 _ F "file" hmaster)
      (marks_mono_commit ms2 _ F C hcommit)
  · have hc2 : commitHas (applyMarks (ms ++ [Mark.mk "file" F C])) F C2 = false := by
      show commitHas ((ms ++ [Mark.mk "file" F C]).foldl markStep emptyStatus) F C2 = false
      apply commitHas_false_of_no_marks F C2 (ms ++ [Mark.mk "file" F C]) emptyStatus
      · simp [commitHas, emptyStatus]
      · intro m hm
        rcases List.mem_append.mp hm with h | h
        · exact hfresh m h
        · simp only [List.mem_singleton] at h
          subst h
          rintro ⟨_, h2⟩
          exact hC2 h2.symm
    exact unprocessed_of_not_commit files _ C2 F path hc2 hmem
  · exact not_unprocessed_of_processed files _ C2 F path
      (mark_mono_master _ _ _ _ _ _ hmaster)
      (commitHas_mark_self _ _ _ _)

theorem C4_witness :
    ((1, "a.c") ∉ get_unprocessed_files [(1, "a.c")]
        (applyMarks ([] ++ [⟨"file", 1, "HEAD"⟩])) "HEAD")
    ∧ ((1, "a.c") ∈ get_unprocessed_files [(1, "a.c")]
        (applyMarks ([] ++ [⟨"file", 1, "HEAD"⟩])) "c2") :=
  ⟨(C4_amended [] 1 "a.c" "HEAD" "c2" [(1, "a.c")]
      (by simp) (by decide) (by simp) (by simp)).1,
   (C4_amended [] 1 "a.c" "HEAD" "c2" [(1, "a.c")]
      (by simp) (by decide) (by simp) (by simp)).2.2.1⟩

/- ===================== Claim C7 ===================== -/

theorem cull_nodup (fm : List (Nat × FuncObj)) :
    ∀ p ∈ cullDuplicates fm, p.2.callers.Nodup ∧ p.2.callees.Nodup := by
  intro p hp
  simp only [cullDuplicates, List.mem_map] at hp
  obtain ⟨q, _, rfl⟩ := hp
  exact ⟨dedupKeys_nodup _, dedupKeys_nodup _⟩

theorem unify_nodup (fm : List (Nat × FuncObj))
    (h : ∀ p ∈ fm, p.2.callers.Nodup ∧ p.2.callees.Nodup) :
    ∀ p ∈ unifyFuncs fm, p.2.callers.Nodup ∧ p.2.callees.Nodup := by
  unfold unifyFuncs
  refine foldl_inv
    (fun um : List (UKey × FuncObj) => ∀ p ∈ um, p.2.callers.Nodup ∧ p.2.callees.Nodup)
    _ fm [] (by simp) ?_
  intro um a ha hInv
  cases hfind : dictFind? um (a.2.path, a.2.name, a.2.start_line, a.2.end_line) with
  | none =>
      simp only [hfind]
      intro p hp
      rcases List.mem_append.mp hp with hp' | hp'
      · exact hInv p hp'
      · simp only [List.mem_singleton] at hp'
        subst hp'
        exact h a ha
  | some v =>
      simp only [hfind]
      exact dictModify_forall (fun o : FuncObj => o.callers.Nodup ∧ o.callees.Nodup) um _ _
        hInv (fun u _ => ⟨dedupKeys_nodup _, dedupKeys_nodup _⟩)

theorem initCodeMap_ok (f2p : List (Nat × String)) :
    ∀ q ∈ initCodeMap f2p, ∀ f ∈ q.2.functions, f.callers.Nodup ∧ f.callees.Nodup := by
  unfold initCodeMap
  refine foldl_inv
    (fun m : List (String × FileEntry) =>
      ∀ q ∈ m, ∀ f ∈ q.2.functions, f.callers.Nodup ∧ f.callees.Nodup)
    _ f2p [] (by simp) ?_
  intro m a _ hInv
  exact dictInsert_forall
    (fun fe : FileEntry => ∀ f ∈ fe.functions, f.callers.Nodup ∧ f.callees.Nodup)
    m a.2 emptyFileEntry hInv (by simp [emptyFileEntry])

theorem applyFileSummaries_ok (f2p : List (Nat × String)) (rows : List SummaryRow)
    (commit_sha : String) (m : List (String × FileEntry))
    (hm : ∀ q ∈ m, ∀ f ∈ q.2.functions, f.callers.Nodup ∧ f.callees.Nodup) :
    ∀ q ∈ applyFileSummaries f2p rows commit_sha m, ∀ f ∈ q.2.functions,
      f.callers.Nodup ∧ f.callees.Nodup := by
  unfold applyFileSummaries
  refine foldl_inv
    (fun m : List (String × FileEntry) =>
      ∀ q ∈ m, ∀ f ∈ q.2.functions, f.callers.Nodup ∧ f.callees.Nodup)
    _ _ m hm ?_
  intro m' row _ hInv
  cases hpt : pyTruthy (dictFind? f2p row.item_id) with
  | false => simpa [hpt] using hInv
  | true =>
      simp only [hpt, if_pos]
      exact dictModify_forall
        (fun fe : FileEntry => ∀ f ∈ fe.functions, f.callers.Nodup ∧ f.callees.Nodup)
        m' _ _ hInv (fun fe hfe => hfe)

theorem applySymbols_ok (f2p : List (Nat × String)) (rows : List SymbolRow)
    (m : List (String × FileEntry))
    (hm : ∀ q ∈ m, ∀ f ∈ q.2.functions, f.callers.Nodup ∧ f.callees.Nodup) :
    ∀ q ∈ applySymbols f2p rows m, ∀ f ∈ q.2.functions,
      f.callers.Nodup ∧ f.callees.Nodup := by
  unfold applySymbols
  refine foldl_inv
    (fun m : List (String × FileEntry) =>
      ∀ q ∈ m, ∀ f ∈ q.2.functions, f.callers.Nodup ∧ f.callees.Nodup)
    _ _ m hm ?_
  intro m' row _ hInv
  cases hpt : pyTruthy (dictFind? f2p row.file_id) with
  | false => simpa [hpt] using hInv
  | true =>
      simp only [hpt, if_pos]
      refine dictModify_forall
        (fun fe : FileEntry => ∀ f ∈ fe.functions, f.callers.Nodup ∧ f.callees.Nodup)
        m' _ _ hInv (fun fe hfe => ?_)
      split
      · exact hfe
      · split
        · exact hfe
        · split
          · exact hfe
          · exact hfe

theorem attachFuncs_ok (um : List (UKey × FuncObj)) (m : List (String × FileEntry))
    (hum : ∀ p ∈ um, p.2.callers.Nodup ∧ p.2.callees.Nodup)
    (hm : ∀ q ∈ m, ∀ f ∈ q.2.functions, f.callers.Nodup ∧ f.callees.Nodup) :
    ∀ q ∈ attachFuncs um m, ∀ f ∈ q.2.functions, f.callers.Nodup ∧ f.callees.Nodup := by
  unfold attachFuncs
  refine foldl_inv
    (fun m : List (String × FileEntry) =>
      ∀ q ∈ m, ∀ f ∈ q.2.functions, f.callers.Nodup ∧ f.callees.Nodup)
    _ um m hm ?_
  intro m' a ha hInv
  refine dictModify_forall
    (fun fe : FileEntry => ∀ f ∈ fe.functions, f.callers.Nodup ∧ f.callees.Nodup)
    m' _ _ hInv (fun fe hfe => ?_)
  intro f hf
  rcases List.mem_append.mp hf with hf' | hf'
  · exact hfe f hf'
  · simp only [List.mem_singleton] at hf'
    subst hf'
    exact hum a ha

/-- Claim C7: in the assembled code map, the callers and callees list of
every function entry is duplicate-free, whatever the underlying store rows
hold: the lists are deduplicated after the references loop and
re-deduplicated whenever rows sharing the logical identity key are merged. -/
theorem C7_no_duplicate_refs (db : DB) (commit_sha : String) :
    ∀ q ∈ build_code_map_from_db db commit_sha, ∀ f ∈ q.2.functions,
      f.callers.Nodup ∧ f.callees.Nodup := by
  show ∀ q ∈ attachFuncs
      (unifyFuncs (cullDuplicates (applyReferences db
        (applyFuncSummaries db.function_summaries commit_sha
          (buildFuncMap db (file_id_to_path db))))))
      (applySymbols (file_id_to_path db) db.file_symbols
        (applyFileSummaries (file_id_to_path db) db.file_summaries commit_sha
          (initCodeMap (file_id_to_path db)))), _
  exact attachFuncs_ok _ _
    (unify_nodup _ (cull_nodup _))
    (applySymbols_ok _ _ _
      (applyFileSummaries_ok _ _ _ _
        (initCodeMap_ok _)))

theorem C7_witness :
    ("file", fe7) ∈ build_code_map_from_db db7 "HEAD"
    ∧ f7 ∈ fe7.functions
    ∧ (f7.callers.Nodup ∧ f7.callees.Nodup) :=
  ⟨by decide, by decide,
   C7_no_duplicate_refs db7 "HEAD" ("file", fe7) (by decide) f7 (by decide)⟩

end CodeBuddy
